import Mathlib

/-!
Verification of the md5rs-client media pipeline against its specification.

The definitions below are a shallow embedding of the Rust sources:

* `sample_evenly`        from src/utils.rs   (frame sampler)
* `resize_dims` / `resize_dims_f32` from src/media.rs (resize_encode
  dimension logic; the latter carries the f32 arithmetic bit-exactly)
* `removeFileWithRetries` from src/media.rs  (staged-copy cleanup)
* `mkImageFrame` / `mkVideoFrame` from src/media.rs (Frame construction)
* the correlation-map / exporter state machine from src/main.rs `run`
  (outbound stream at lines 287-327, inbound loop at lines 351-377)
* `processResponseLib`   from src/lib.rs `process` (inbound loop, lines 219-241)
* `resume_from_checkpoint` core loop from src/main.rs lines 483-501
* the checkpoint==0 gate from src/main.rs lines 151-159 and `main`.

Machine integers (usize, i32) are modelled as Nat / Int with explicit
wrap-around where a cast occurs.  The f64 arithmetic of the sampler
index (`(i as f64 * step).floor()`) is modelled by its exact real value,
which on naturals is floor division.  The f32 arithmetic of the resize
ratio is modelled bit-exactly: a modelled f32 is a (mantissa, exponent)
pair of a Nat and an Int, casts and division round to nearest with ties
to even (`rn32Rat`), and `resize_dims_f32` chains them exactly as
resize_encode does, while `resize_dims` keeps the exact-ratio value for
comparison.
Byte buffers are `List Nat`; wall-clock timestamps are their textual form.
-/

namespace Md5rs

/-- Even round-up used by resize_encode: `resized % 2 + resized`
(src/media.rs lines 208 and 212). Leaves an even value unchanged and
raises an odd value by one. -/
def evenUp (n : Nat) : Nat := n % 2 + n

/-- Dimension computation of `resize_encode` (src/media.rs lines 200-213):
both sides start at `imgsz`; the branch on `width > height` rescales the
shorter side by the exact ratio and rounds it up to even. -/
def resize_dims (width height imgsz : Nat) : Nat × Nat :=
  if height < width then (imgsz, evenUp (height * imgsz / width))
  else (evenUp (width * imgsz / height), imgsz)

/-- Floor of the base-2 logarithm on naturals, via an explicit fuel so
that it evaluates inside the kernel.  `natLog2Aux fuel n` halves `n`
until it reaches 1; `fuel = n` always suffices. -/
def natLog2Aux : Nat → Nat → Nat
  | 0, _ => 0
  | fuel + 1, n => if n ≤ 1 then 0 else natLog2Aux fuel (n / 2) + 1

/-- Floor of the base-2 logarithm of a positive natural. -/
def natLog2 (n : Nat) : Nat := natLog2Aux n n

/-- Floor of the base-2 logarithm of the positive rational a / b,
computed on integers: shift a into range, take the integer log, shift
back. -/
def floorLog2Q (a b : Nat) : Int :=
  (natLog2 (a * 2 ^ (natLog2 b + 1) / b) : Int) - (natLog2 b + 1)

/-- Round the rational p / q to the nearest integer, ties to even, in
integer arithmetic: compare twice the remainder with the divisor. -/
def rnHalf (p q : Nat) : Nat :=
  if 2 * (p % q) < q then p / q
  else if q < 2 * (p % q) then p / q + 1
  else if p / q % 2 = 0 then p / q else p / q + 1

/-- IEEE-754 binary32 rounding (round to nearest, ties to even) of the
positive rational a / b, in integer arithmetic.  Returns a mantissa m
with 2^23 ≤ m ≤ 2^24 and an exponent e; the rounded value is m * 2^e.
Normal range only, which covers every value the resize path produces. -/
def rn32Rat (a b : Nat) : Nat × Int :=
  let E := floorLog2Q a b
  let p := if E ≤ 23 then a * 2 ^ (23 - E).toNat else a
  let q := if E ≤ 23 then b else b * 2 ^ (E - 23).toNat
  (rnHalf p q, E - 23)

/-- The rational value of a modelled f32 (mantissa, exponent) pair. -/
def val32 (x : Nat × Int) : ℚ := (x.1 : ℚ) * 2 ^ x.2

/-- The Rust cast `k as f32` of a natural, as a modelled f32. -/
def f32ofNat (k : Nat) : Nat × Int := rn32Rat k 1

/-- IEEE-754 binary32 division of two modelled f32 values: round the
exact quotient of the mantissas and shift by the exponent difference. -/
def f32div (x y : Nat × Int) : Nat × Int :=
  let z := rn32Rat x.1 y.1
  (z.1, z.2 + x.2 - y.2)

/-- The Rust cast `q as u32` of a nonnegative modelled f32: truncate
toward zero, saturating at the u32 maximum. -/
def truncF32 (x : Nat × Int) : Nat :=
  if 0 ≤ x.2 then min (x.1 * 2 ^ x.2.toNat) (2 ^ 32 - 1)
  else min (x.1 / 2 ^ (-x.2).toNat) (2 ^ 32 - 1)

/-- Dimension computation of `resize_encode` (src/media.rs lines 200-213)
with the f32 arithmetic of the source modelled bit-exactly:
`ratio = width as f32 / imgsz as f32`, `(height as f32 / ratio) as u32`,
then `resized % 2 + resized`, and symmetrically when height is not
smaller. -/
def resize_dims_f32 (width height imgsz : Nat) : Nat × Nat :=
  if height < width then
    let ratio := f32div (f32ofNat width) (f32ofNat imgsz)
    let rh := truncF32 (f32div (f32ofNat height) ratio)
    (imgsz, rh % 2 + rh)
  else
    let ratio := f32div (f32ofNat height) (f32ofNat imgsz)
    let rw := truncF32 (f32div (f32ofNat width) ratio)
    (rw % 2 + rw, imgsz)

/-- Fetch every listed index from `list`; `none` models the Rust
index-out-of-bounds panic on `list[index]`. -/
def getAll {α : Type} (list : List α) : List Nat → Option (List α)
  | [] => some []
  | i :: is =>
    match list.get? i with
    | some x =>
      match getAll list is with
      | some r => some (x :: r)
      | none => none
    | none => none

/-- `sample_evenly` (src/utils.rs lines 18-31): for `sample_size = 0` or an
empty list, the empty vector; otherwise the elements at the indices
`floor(i * (len / sample_size))` for `i` in `0..sample_size`, the index
arithmetic taken at its exact real value. -/
def sample_evenly {α : Type} (list : List α) (sample_size : Nat) : Option (List α) :=
  if sample_size = 0 ∨ list.length = 0 then some []
  else getAll list ((List.range sample_size).map fun i => i * list.length / sample_size)

/-- `remove_file_with_retries` (src/media.rs lines 87-113), abstracted over
the outcome of each deletion attempt.  `succ k` tells whether the k-th call
to `std::fs::remove_file` succeeds.  The loop runs while
`attempts < max_retries` and the function ends in `Ok(())` on both exits. -/
def removeFileWithRetries (succ : Nat → Bool) : Nat → Nat → Except String Unit
  | 0, _ => Except.ok ()
  | fuel + 1, attempt =>
    if succ attempt then Except.ok ()
    else removeFileWithRetries succ fuel (attempt + 1)

/-- `Result::expect` as used on the `remove_file_with_retries` call in
`media_worker` (src/media.rs lines 80-83): `none` models the panic. -/
def expectOk : Except String Unit → Option Unit
  | Except.ok _ => some ()
  | Except.error _ => none

/-- `FileItem` (src/utils.rs lines 33-40).  Paths are their textual form;
derived equality uses all four fields, as the Rust derive does. -/
structure FileItem where
  folder_id : Nat
  file_id : Nat
  file_path : String
  tmp_path : String
deriving DecidableEq, Repr

/-- Wire-level bounding box of a DetectResponse
(proto message used at src/main.rs lines 363-372).  The f32 coordinates
and score are pass-through data, modelled by their exact rational value;
`cls` is the i32 class index. -/
structure WireBbox where
  x1 : Rat
  y1 : Rat
  x2 : Rat
  y2 : Rat
  cls : Int
  score : Rat
deriving DecidableEq, Repr

/-- `Bbox` as stored in an ExportFrame (declared in the export module,
whose source file is absent from src/; field list taken from its
construction at src/main.rs lines 365-372: same data with the class cast
to usize). -/
structure ExportBbox where
  x1 : Rat
  y1 : Rat
  x2 : Rat
  y2 : Rat
  cls : Nat
  score : Rat
deriving DecidableEq, Repr

/-- The Rust cast `i32 as usize` (64-bit target): sign-extend, then
reinterpret as unsigned. -/
def i32AsUsize (i : Int) : Nat := (i % (2 ^ 64 : Int)).toNat

/-- The Rust cast `usize as i32`: truncate to 32 bits, reinterpret signed. -/
def usizeAsI32 (n : Nat) : Int :=
  let m : Nat := n % 2 ^ 32
  if m < 2 ^ 31 then (m : Int) else (m : Int) - 2 ^ 32

/-- The conversion applied to each wire bbox at src/main.rs lines 364-372. -/
def convertBbox (b : WireBbox) : ExportBbox :=
  { x1 := b.x1, y1 := b.y1, x2 := b.x2, y2 := b.y2
    cls := i32AsUsize b.cls, score := b.score }

/-- `ExportFrame` (declared in the export module, whose source file is
absent from src/; fields taken from the spec data model plus the
`is_iframe` field visible in the struct literals at src/main.rs
lines 299-323).  `file` is the owning FileItem, as built from
`frame.file.clone()`. -/
structure ExportFrame where
  file : FileItem
  frame_index : Nat
  shoot_time : Option String
  total_frames : Nat
  is_iframe : Bool
  bboxes : Option (List ExportBbox)
  label : Option String
  error : Option String
deriving DecidableEq, Repr

/-- `Frame` (src/media.rs lines 39-47): a successfully encoded still or
sampled video frame. -/
structure Frame where
  file : FileItem
  webp : List Nat
  width : Nat
  height : Nat
  iframe_index : Nat
  total_frames : Nat
  shoot_time : Option String
deriving DecidableEq, Repr

/-- `ErrFile` (src/media.rs lines 49-52). -/
structure ErrFile where
  file : FileItem
  error : String
deriving DecidableEq, Repr

/-- `WebpItem` (src/media.rs lines 54-57). -/
inductive WebpItem where
  | frame (f : Frame)
  | errFile (e : ErrFile)
deriving DecidableEq, Repr

/-- `DetectRequest` (proto message, filled at src/main.rs line 311). -/
structure DetectRequest where
  uuid : String
  image : List Nat
  width : Int
  height : Int
  iou : Rat
  score : Rat
deriving DecidableEq, Repr

/-- `DetectResponse` (proto message, consumed at src/main.rs
lines 355-377). -/
structure DetectResponse where
  uuid : String
  label : String
  bboxs : List WireBbox
deriving DecidableEq, Repr

/-- Frame construction in `process_image` (src/media.rs lines 169-177):
the width and height stored are `img.width()` and `img.height()` of the
decoded image, taken before `resize_encode` ran on it. -/
def mkImageFrame (file : FileItem) (w h : Nat) (webp : List Nat)
    (shoot : Option String) : Frame :=
  { file := file, webp := webp, width := w, height := h
    iframe_index := 0, total_frames := 1, shoot_time := shoot }

/-- Frame construction in `handle_ffmpeg_output` (src/media.rs
lines 334-354): the width and height stored are the input-stream
dimensions reported by `ParsedInputStream`, not those of the scaled
output frame that was encoded. -/
def mkVideoFrame (file : FileItem) (inW inH : Nat) (webp : List Nat)
    (sampledIndex total : Nat) (shoot : Option String) : Frame :=
  { file := file, webp := webp, width := inW, height := inH
    iframe_index := sampledIndex, total_frames := total, shoot_time := shoot }

/-- The pending ExportFrame inserted into the correlation map for a Frame
(src/main.rs lines 299-309): bboxes, label and error all unset,
`is_iframe` copied from the configured flag. -/
def mkPendingFrame (iframe_only : Bool) (f : Frame) : ExportFrame :=
  { file := f.file, frame_index := f.iframe_index, shoot_time := f.shoot_time
    total_frames := f.total_frames, is_iframe := iframe_only
    bboxes := none, label := none, error := none }

/-- The ExportFrame sent for an ErrFile (src/main.rs lines 313-324):
error set, frame_index and total_frames zero, `is_iframe` false. -/
def mkErrExportFrame (e : ErrFile) : ExportFrame :=
  { file := e.file, frame_index := 0, shoot_time := none, total_frames := 0
    is_iframe := false, bboxes := none, label := none
    error := some e.error }

/-- The DetectRequest yielded for a Frame (src/main.rs line 311). -/
def mkDetectRequest (uuid : String) (f : Frame) (iou conf : Rat) :
    DetectRequest :=
  { uuid := uuid, image := f.webp, width := usizeAsI32 f.width
    height := usizeAsI32 f.height, iou := iou, score := conf }

/-- Filling a pending ExportFrame from a DetectResponse (src/main.rs
lines 363-375): bboxes and label become set, everything else kept. -/
def fillResponse (p : ExportFrame) (r : DetectResponse) : ExportFrame :=
  { p with bboxes := some (r.bboxs.map convertBbox), label := some r.label }

/-- Association-list lookup, modelling `HashMap::get` / the hit test of
`HashMap::remove`. -/
def alLookup {κ ν : Type} [DecidableEq κ] : List (κ × ν) → κ → Option ν
  | [], _ => none
  | (k, v) :: rest, u => if k = u then some v else alLookup rest u

/-- Removal of a key, modelling `HashMap::remove`. -/
def alErase {κ ν : Type} [DecidableEq κ] : List (κ × ν) → κ → List (κ × ν)
  | [], _ => []
  | (k, v) :: rest, u =>
    if k = u then alErase rest u else (k, v) :: alErase rest u

/-- Key update, modelling `HashMap::insert` (replaces any old binding). -/
def alInsert {κ ν : Type} [DecidableEq κ] (m : List (κ × ν)) (k : κ)
    (v : ν) : List (κ × ν) :=
  (k, v) :: alErase m k

/-- State of the `run` pipeline bridge (src/main.rs): `pending` is the
correlation map `frames`, `sent` the items pushed onto the exporter
channel, most recent first. -/
structure PipeState where
  pending : List (String × ExportFrame)
  sent : List ExportFrame
deriving DecidableEq, Repr

/-- The two kinds of events the bridge reacts to: a WebpItem received
from the media channel (with the UUID freshly generated for it) and an
inbound DetectResponse. -/
inductive PipeEvent where
  | media (item : WebpItem) (uuid : String)
  | response (r : DetectResponse)
deriving DecidableEq, Repr

/-- One step of `run` (src/main.rs): the outbound stream body
(lines 287-327) for media items, the inbound loop body (lines 355-377)
for responses.  A response whose uuid misses the correlation map hits
`frames.remove(&uuid).unwrap()` at line 362; the `none` result models
that panic. -/
def stepRun (iframe_only : Bool) (s : PipeState) : PipeEvent → Option PipeState
  | PipeEvent.media (WebpItem.frame f) uuid =>
    some { pending := alInsert s.pending uuid (mkPendingFrame iframe_only f)
           sent := s.sent }
  | PipeEvent.media (WebpItem.errFile e) _ =>
    some { pending := s.pending, sent := mkErrExportFrame e :: s.sent }
  | PipeEvent.response r =>
    match alLookup s.pending r.uuid with
    | some p =>
      some { pending := alErase s.pending r.uuid
             sent := fillResponse p r :: s.sent }
    | none => none

/-- A whole event sequence processed by `run`; `none` as soon as one step
panics. -/
def runTrace (iframe_only : Bool) (s : PipeState) :
    List PipeEvent → Option PipeState
  | [] => some s
  | e :: es =>
    match stepRun iframe_only s e with
    | some s2 => runTrace iframe_only s2 es
    | none => none

/-- The pipeline starts with an empty correlation map and nothing sent. -/
def initState : PipeState := { pending := [], sent := [] }

/-- The inbound-response handling of `process` (src/lib.rs lines 220-241):
`if let Some(mut frame) = frames.remove(&uuid)` fills and forwards on a
hit, and falls through silently on a miss.  Returns the updated map and
the frame sent to the exporter, if any. -/
def processResponseLib (pending : List (String × ExportFrame))
    (r : DetectResponse) : List (String × ExportFrame) × Option ExportFrame :=
  match alLookup pending r.uuid with
  | some p => (alErase pending r.uuid, some (fillResponse p r))
  | none => (pending, none)

/-- State of the record loop of `resume_from_checkpoint` (src/main.rs
lines 483-500): `counts` is file_frame_count, `totals` is
file_total_frames, `files` the remaining WorkSet (all_files). -/
structure ResumeState where
  counts : List (FileItem × Nat)
  totals : List (FileItem × Nat)
  files : List FileItem
deriving DecidableEq, Repr

/-- One iteration of the loop `for f in &frames` (src/main.rs
lines 485-500): bump the per-file count, record the first-seen
total_frames, and remove the file from the WorkSet when the two maps now
agree on it. -/
def resumeStep (s : ResumeState) (f : ExportFrame) : ResumeState :=
  let c : Nat := (alLookup s.counts f.file).getD 0 + 1
  let counts := alInsert s.counts f.file c
  let totals :=
    match alLookup s.totals f.file with
    | some _ => s.totals
    | none => alInsert s.totals f.file f.total_frames
  let files :=
    match alLookup totals f.file, alLookup counts f.file with
    | some t, some cnt =>
      if t = cnt then s.files.filter (fun g => g ≠ f.file) else s.files
    | _, _ => s.files
  { counts := counts, totals := totals, files := files }

/-- The WorkSet-shrinking core of `resume_from_checkpoint` (src/main.rs
lines 452-510): given the parsed records and the indexed WorkSet, the
WorkSet that remains after the record loop.  Path validation, parsing and
the export-accumulator seeding are outside this function. -/
def resume_from_checkpoint (frames : List ExportFrame)
    (all_files : List FileItem) : List FileItem :=
  (frames.foldl resumeStep
    { counts := [], totals := [], files := all_files }).files

/-- Number of records a prior artifact holds for a file (the spec notion
of the observed per-file count). -/
def countRecords (frames : List ExportFrame) (f : FileItem) : Nat :=
  (frames.filter (fun g => g.file = f)).length

/-- The total_frames reported for a file by a prior artifact: the value
carried by its first record, which is the one `or_insert` retains. -/
def firstTotal (frames : List ExportFrame) (f : FileItem) : Option Nat :=
  (frames.find? (fun g => g.file = f)).map (fun g => g.total_frames)

/-- Outcome of the checkpoint gate in `run` (src/main.rs lines 151-159):
checkpoint == 0 logs an error and returns early with Ok(()), anything
else proceeds into the pipeline. -/
inductive RunOutcome where
  | configRejected
  | pipelineStarted
deriving DecidableEq, Repr

/-- The gate itself: `if args.checkpoint == 0 \x7b ... return Ok(()) \x7d`. -/
def checkpointGate (checkpoint : Nat) : RunOutcome :=
  if checkpoint = 0 then RunOutcome.configRejected
  else RunOutcome.pipelineStarted

/-- Return value of `run` as a function of the gate (src/main.rs
lines 151-159): the early return is `Ok(())`; otherwise `run` returns
whatever the started pipeline produces. -/
def runReturn (checkpoint : Nat) (pipelineResult : Except String Unit) :
    Except String Unit :=
  match checkpointGate checkpoint with
  | RunOutcome.configRejected => Except.ok ()
  | RunOutcome.pipelineStarted => pipelineResult

/-- Process exit code as determined by `main` (src/main.rs lines 413-424):
`run(args)?` propagates an Err, which the runtime turns into a nonzero
exit; an Ok return reaches the end of main and exits 0. -/
def mainExitCode (runResult : Except String Unit) : Nat :=
  match runResult with
  | Except.ok _ => 0
  | Except.error _ => 1

/-- The removal condition the resume loop actually implements: the first
record of the file reports a positive total and the running count reaches
it while scanning the artifact. -/
def removedCond (frames : List ExportFrame) (f : FileItem) : Prop :=
  ∃ t, firstTotal frames f = some t ∧ 1 ≤ t ∧ t ≤ countRecords frames f

/-! ### Supporting lemmas -/

theorem getAll_spec {α : Type} (list : List α) :
    ∀ is : List Nat, (∀ i ∈ is, i < list.length) →
      ∃ r, getAll list is = some r ∧ r.length = is.length ∧
        ∀ j : Nat, r.get? j = (is.get? j).bind list.get? := by
  intro is
  induction is with
  | nil =>
    intro _
    exact ⟨[], rfl, rfl, fun j => by cases j <;> rfl⟩
  | cons i is ih =>
    intro hb
    have hi : i < list.length := hb i (List.mem_cons_self i is)
    obtain ⟨x, hx⟩ : ∃ x, list.get? i = some x := by
      cases hget : list.get? i with
      | none => exact absurd hi (by simpa using List.get?_eq_none.mp hget)
      | some x => exact ⟨x, rfl⟩
    obtain ⟨r, hr, hlen, hpt⟩ := ih (fun j hj => hb j (List.mem_cons_of_mem i hj))
    refine ⟨x :: r, ?_, by simpa using hlen, ?_⟩
    · simp only [getAll, hx, hr]
    · intro j
      cases j with
      | zero => simpa using hx.symm
      | succ j => simpa using hpt j

theorem sample_index_lt (a b c : Nat) (hab : a < b) (hc : 0 < c) :
    a * c / b < c := by
  have hb : 0 < b := lt_of_le_of_lt (Nat.zero_le a) hab
  rw [Nat.div_lt_iff_lt_mul hb]
  calc a * c < b * c := mul_lt_mul_of_pos_right hab hc
    _ = c * b := Nat.mul_comm b c

theorem alLookup_mem {κ ν : Type} [DecidableEq κ] :
    ∀ (m : List (κ × ν)) (k : κ) (v : ν),
      alLookup m k = some v → (k, v) ∈ m := by
  intro m
  induction m with
  | nil => intro k v h; cases h
  | cons kv rest ih =>
    intro k v h
    obtain ⟨k0, v0⟩ := kv
    by_cases hk : k0 = k
    · subst hk
      simp only [alLookup, if_pos rfl] at h
      cases h
      exact List.mem_cons_self _ _
    · simp only [alLookup, if_neg hk] at h
      exact List.mem_cons_of_mem _ (ih k v h)

theorem alErase_subset {κ ν : Type} [DecidableEq κ] :
    ∀ (m : List (κ × ν)) (k : κ) (kv : κ × ν),
      kv ∈ alErase m k → kv ∈ m := by
  intro m
  induction m with
  | nil => intro k kv h; cases h
  | cons hd rest ih =>
    intro k kv h
    obtain ⟨k0, v0⟩ := hd
    by_cases hk : k0 = k
    · simp only [alErase, if_pos hk] at h
      exact List.mem_cons_of_mem _ (ih k kv h)
    · simp only [alErase, if_neg hk] at h
      rcases List.mem_cons.mp h with h | h
      · exact h ▸ List.mem_cons_self _ _
      · exact List.mem_cons_of_mem _ (ih k kv h)

theorem alLookup_alErase_ne {κ ν : Type} [DecidableEq κ] :
    ∀ (m : List (κ × ν)) (k k2 : κ), k2 ≠ k →
      alLookup (alErase m k) k2 = alLookup m k2 := by
  intro m
  induction m with
  | nil => intro k k2 _; rfl
  | cons hd rest ih =>
    intro k k2 hne
    obtain ⟨k0, v0⟩ := hd
    by_cases hk : k0 = k
    · subst hk
      have : ¬ k0 = k2 := fun h => hne (h ▸ rfl)
      simp only [alErase, if_pos rfl, alLookup, if_neg this]
      exact ih k0 k2 hne
    · by_cases hk2 : k0 = k2
      · subst hk2
        simp [alErase, if_neg hk, alLookup]
      · simp only [alErase, if_neg hk, alLookup, if_neg hk2]
        exact ih k k2 hne

theorem alLookup_alInsert_self {κ ν : Type} [DecidableEq κ]
    (m : List (κ × ν)) (k : κ) (v : ν) :
    alLookup (alInsert m k v) k = some v := by
  simp [alInsert, alLookup]

theorem alLookup_alInsert_ne {κ ν : Type} [DecidableEq κ]
    (m : List (κ × ν)) (k k2 : κ) (v : ν) (hne : k2 ≠ k) :
    alLookup (alInsert m k v) k2 = alLookup m k2 := by
  have : ¬ k = k2 := fun h => hne h.symm
  simp only [alInsert, alLookup, if_neg this]
  exact alLookup_alErase_ne m k k2 hne

/-! ### C9: remove_file_with_retries never reports failure -/

/-- C9.  `remove_file_with_retries` returns `Ok(())` whatever the
attempts do — in particular when every attempt fails — so the `expect`
on it in `media_worker` never panics and the media worker never emits an
error for an undeletable staged copy. -/
theorem remove_file_with_retries_ok (succ : Nat → Bool) :
    ∀ maxRetries attempt : Nat,
      removeFileWithRetries succ maxRetries attempt = Except.ok () ∧
      expectOk (removeFileWithRetries succ maxRetries attempt) = some () := by
  intro maxRetries
  induction maxRetries with
  | zero => intro attempt; exact ⟨rfl, rfl⟩
  | succ n ih =>
    intro attempt
    by_cases h : succ attempt = true
    · constructor <;> simp [removeFileWithRetries, h, expectOk]
    · have h2 := ih (attempt + 1)
      constructor <;>
        simp [removeFileWithRetries, h, h2.1, h2.2, expectOk]

/-! ### C2: what sample_evenly returns -/

/-- Evaluation of the sampler off the empty edge cases: the result is a
list of exactly `sample_size` elements whose i-th entry is the input at
index `floor(i * len / sample_size)`. -/
theorem sample_evenly_eval {α : Type} (list : List α) (sample_size : Nat)
    (hk : sample_size ≠ 0) (hl : list.length ≠ 0) :
    ∃ r, sample_evenly list sample_size = some r ∧
      r.length = sample_size ∧
      ∀ i, i < sample_size →
        r.get? i = list.get? (i * list.length / sample_size) := by
  have hcond : ¬ (sample_size = 0 ∨ list.length = 0) := by
    intro h; rcases h with h | h
    · exact hk h
    · exact hl h
  have hlen : 0 < list.length := Nat.pos_of_ne_zero hl
  have hb : ∀ i ∈ (List.range sample_size).map
      (fun i => i * list.length / sample_size), i < list.length := by
    intro i hi
    rcases List.mem_map.mp hi with ⟨j, hj, rfl⟩
    exact sample_index_lt j sample_size list.length
      (List.mem_range.mp hj) hlen
  obtain ⟨r, hr, hrlen, hpt⟩ := getAll_spec list _ hb
  refine ⟨r, ?_, ?_, ?_⟩
  · unfold sample_evenly
    rw [if_neg hcond]
    exact hr
  · simpa using hrlen
  · intro i hi
    have := hpt i
    rw [List.get?_map, List.get?_range hi] at this
    simpa using this

/-- C8.  Every index `floor(i * len / sample_size)` the sampler computes
is strictly below the list length, and the sampler therefore never hits
the out-of-bounds panic: it returns `some` on every input. -/
theorem sample_evenly_in_bounds {α : Type} (list : List α) (sample_size : Nat) :
    (0 < list.length →
      ∀ i, i < sample_size → i * list.length / sample_size < list.length) ∧
    (sample_evenly list sample_size).isSome := by
  constructor
  · intro hlen i hi
    exact sample_index_lt i sample_size list.length hi hlen
  · by_cases h : sample_size = 0 ∨ list.length = 0
    · unfold sample_evenly
      rw [if_pos h]
      rfl
    · push_neg at h
      obtain ⟨r, hr, -, -⟩ := sample_evenly_eval list sample_size h.1 h.2
      rw [hr]
      rfl

/-- A witness for C8 at a two-element list and target 2. -/
theorem sample_evenly_in_bounds_witness :
    (0 < ([5, 6] : List Nat).length →
      ∀ i, i < 2 → i * ([5, 6] : List Nat).length / 2 < ([5, 6] : List Nat).length) ∧
    (sample_evenly ([5, 6] : List Nat) 2).isSome :=
  sample_evenly_in_bounds [5, 6] 2

/-! ### C7: resize_encode output dimensions -/

theorem natLog2Aux_spec :
    ∀ fuel n : Nat, 1 ≤ n → n ≤ fuel →
      2 ^ natLog2Aux fuel n ≤ n ∧ n < 2 ^ (natLog2Aux fuel n + 1) := by
  intro fuel
  induction fuel with
  | zero => intro n h1 h2; omega
  | succ f ih =>
    intro n h1 h2
    by_cases hn : n ≤ 1
    · have hone : n = 1 := by omega
      subst hone
      simp [natLog2Aux]
    · have h1x : 1 ≤ n / 2 := by omega
      have h2x : n / 2 ≤ f := by omega
      obtain ⟨ha, hb⟩ := ih (n / 2) h1x h2x
      simp only [natLog2Aux, if_neg hn]
      set k := natLog2Aux f (n / 2) with hk
      have hp1 : 2 ^ (k + 1) = 2 ^ k * 2 := pow_succ 2 k
      have hp2 : 2 ^ (k + 1 + 1) = 2 ^ (k + 1) * 2 := pow_succ 2 (k + 1)
      omega

theorem natLog2_spec (n : Nat) (h : 1 ≤ n) :
    2 ^ natLog2 n ≤ n ∧ n < 2 ^ (natLog2 n + 1) :=
  natLog2Aux_spec n n h (Nat.le_refl n)

theorem natDiv_cast_bounds (p q : Nat) (hq : 0 < q) :
    ((p / q : Nat) : ℚ) ≤ (p : ℚ) / q ∧ (p : ℚ) / q < (p / q : Nat) + 1 := by
  have hq0 : (0 : ℚ) < q := by exact_mod_cast hq
  have h1 := Nat.div_add_mod p q
  have h2 := Nat.mod_lt p hq
  constructor
  · rw [le_div_iff hq0]
    exact_mod_cast Nat.div_mul_le_self p q
  · rw [div_lt_iff hq0]
    have key : p < (p / q + 1) * q := by nlinarith [h1, h2]
    exact_mod_cast key

theorem floorLog2Q_spec (a b : Nat) (ha : 1 ≤ a) (hb : 1 ≤ b) :
    (2 : ℚ) ^ floorLog2Q a b ≤ (a : ℚ) / b ∧
    (a : ℚ) / b < 2 ^ (floorLog2Q a b + 1) := by
  set t := natLog2 b + 1 with ht
  set L := natLog2 (a * 2 ^ t / b) with hLdef
  have hflq : floorLog2Q a b = (L : Int) - (t : Int) := rfl
  have hbt : b < 2 ^ t := by
    rw [ht]
    exact (natLog2_spec b hb).2
  have hN1 : 1 ≤ a * 2 ^ t / b := by
    have hba : b ≤ a * 2 ^ t := by
      calc b ≤ 2 ^ t := Nat.le_of_lt hbt
        _ = 1 * 2 ^ t := (Nat.one_mul _).symm
        _ ≤ a * 2 ^ t := Nat.mul_le_mul_right _ ha
    exact (Nat.one_le_div_iff (by omega)).mpr hba
  obtain ⟨hL, hU⟩ := natLog2_spec (a * 2 ^ t / b) hN1
  obtain ⟨hd1, hd2⟩ := natDiv_cast_bounds (a * 2 ^ t) b (by omega)
  have hb0 : (0 : ℚ) < b := by exact_mod_cast hb
  have ht0 : (0 : ℚ) < ((2 ^ t : Nat) : ℚ) := by positivity
  have hlow : ((2 ^ L : Nat) : ℚ) ≤ (a : ℚ) * 2 ^ t / b := by
    calc ((2 ^ L : Nat) : ℚ) ≤ ((a * 2 ^ t / b : Nat) : ℚ) := by exact_mod_cast hL
      _ ≤ ((a * 2 ^ t : Nat) : ℚ) / b := hd1
      _ = (a : ℚ) * 2 ^ t / b := by push_cast; ring_nf
  have hup : (a : ℚ) * 2 ^ t / b < ((2 ^ (L + 1) : Nat) : ℚ) := by
    calc (a : ℚ) * 2 ^ t / b = ((a * 2 ^ t : Nat) : ℚ) / b := by push_cast; ring_nf
      _ < ((a * 2 ^ t / b : Nat) : ℚ) + 1 := hd2
      _ ≤ ((2 ^ (L + 1) : Nat) : ℚ) := by
          have h := Nat.succ_le_of_lt hU
          exact_mod_cast h
  have h2t : ((2 ^ t : Nat) : ℚ) = (2 : ℚ) ^ (t : Int) := by
    rw [zpow_natCast]
    push_cast
    ring
  have h2L : ((2 ^ L : Nat) : ℚ) = (2 : ℚ) ^ (L : Int) := by
    rw [zpow_natCast]
    push_cast
    ring
  have h2L1 : ((2 ^ (L + 1) : Nat) : ℚ) = (2 : ℚ) ^ ((L : Int) + 1) := by
    rw [show ((L : Int) + 1) = ((L + 1 : Nat) : Int) by push_cast; ring, zpow_natCast]
    push_cast
    ring
  have hquot : ((a : ℚ) * 2 ^ t / b) / ((2 ^ t : Nat) : ℚ) = (a : ℚ) / b := by
    push_cast
    field_simp
    ring
  constructor
  · rw [hflq, zpow_sub₀ (two_ne_zero), ← h2L, ← h2t, ← hquot]
    exact (div_le_div_right ht0).mpr hlow
  · rw [hflq, show (L : Int) - t + 1 = ((L : Int) + 1) - t by ring,
      zpow_sub₀ (two_ne_zero), ← h2L1, ← h2t, ← hquot]
    exact (div_lt_div_right ht0).mpr hup

theorem rnd_half_int (p q : Nat) (hq : 0 < q) :
    p / q ≤ rnHalf p q ∧ rnHalf p q ≤ p / q + 1 ∧
    |((rnHalf p q : Nat) : ℚ) - (p : ℚ) / q| ≤ 1 / 2 := by
  have hq0 : (0 : ℚ) < q := by exact_mod_cast hq
  have hmod := Nat.div_add_mod p q
  have hmlt := Nat.mod_lt p hq
  have hcast : (q : ℚ) * ((p / q : Nat) : ℚ) + ((p % q : Nat) : ℚ) = (p : ℚ) := by
    exact_mod_cast hmod
  have hfrac : (p : ℚ) / q - ((p / q : Nat) : ℚ) = ((p % q : Nat) : ℚ) / q := by
    field_simp
    linarith
  have hrq0 : (0 : ℚ) ≤ ((p % q : Nat) : ℚ) / q := by positivity
  unfold rnHalf
  split_ifs with h1 h2 h3
  · refine ⟨Nat.le_refl _, by omega, ?_⟩
    have h1Q : 2 * ((p % q : Nat) : ℚ) < q := by exact_mod_cast h1
    have hrq : ((p % q : Nat) : ℚ) / q < 1 / 2 := by
      rw [div_lt_iff hq0]
      linarith
    rw [abs_le]
    constructor <;> linarith [hfrac, hrq, hrq0]
  · refine ⟨by omega, Nat.le_refl _, ?_⟩
    have h2Q : (q : ℚ) < 2 * ((p % q : Nat) : ℚ) := by exact_mod_cast h2
    have hrq : 1 / 2 < ((p % q : Nat) : ℚ) / q := by
      rw [lt_div_iff hq0]
      linarith
    have hrq1 : ((p % q : Nat) : ℚ) / q < 1 := by
      rw [div_lt_one hq0]
      exact_mod_cast hmlt
    rw [abs_le]
    push_cast
    constructor <;> linarith [hfrac]
  · refine ⟨Nat.le_refl _, by omega, ?_⟩
    have hqe : q = 2 * (p % q) := by omega
    have hrq : ((p % q : Nat) : ℚ) / q = 1 / 2 := by
      have hqQ : (q : ℚ) = 2 * ((p % q : Nat) : ℚ) := by exact_mod_cast hqe
      rw [div_eq_iff (ne_of_gt hq0)]
      linarith
    rw [abs_le]
    constructor <;> linarith [hfrac]
  · refine ⟨by omega, Nat.le_refl _, ?_⟩
    have hqe : q = 2 * (p % q) := by omega
    have hrq : ((p % q : Nat) : ℚ) / q = 1 / 2 := by
      have hqQ : (q : ℚ) = 2 * ((p % q : Nat) : ℚ) := by exact_mod_cast hqe
      rw [div_eq_iff (ne_of_gt hq0)]
      linarith
    rw [abs_le]
    push_cast
    constructor <;> linarith [hfrac]

theorem rn32_core (a b p q : Nat) (E : Int) (hq : 0 < q) (hb : 1 ≤ b)
    (hEl : (2 : ℚ) ^ E ≤ (a : ℚ) / b)
    (hEu : (a : ℚ) / b < 2 ^ (E + 1))
    (hpq : (p : ℚ) / q = ((a : ℚ) / b) * 2 ^ ((23 : ℤ) - E)) :
    2 ^ 23 ≤ rnHalf p q ∧ rnHalf p q ≤ 2 ^ 24 ∧
    |((rnHalf p q : Nat) : ℚ) * 2 ^ (E - 23) - (a : ℚ) / b| ≤
      ((a : ℚ) / b) / 2 ^ 24 := by
  have hq0 : (0 : ℚ) < q := by exact_mod_cast hq
  have hzp : ∀ z : Int, (0 : ℚ) < 2 ^ z := fun z => zpow_pos (by norm_num) z
  have hs_lo : ((2 ^ 23 : Nat) : ℚ) ≤ (p : ℚ) / q := by
    have hc : ((2 ^ 23 : Nat) : ℚ) = (2 : ℚ) ^ E * 2 ^ ((23 : ℤ) - E) := by
      rw [← zpow_add₀ (two_ne_zero : (2:ℚ) ≠ 0)]
      rw [show E + (23 - E) = ((23 : ℕ) : ℤ) by push_cast; ring]
      rw [zpow_natCast]
      norm_num
    rw [hpq, hc]
    exact mul_le_mul_of_nonneg_right hEl (le_of_lt (hzp _))
  have hs_hi : (p : ℚ) / q < ((2 ^ 24 : Nat) : ℚ) := by
    have hc : ((2 ^ 24 : Nat) : ℚ) = (2 : ℚ) ^ (E + 1) * 2 ^ ((23 : ℤ) - E) := by
      rw [← zpow_add₀ (two_ne_zero : (2:ℚ) ≠ 0)]
      rw [show E + 1 + (23 - E) = ((24 : ℕ) : ℤ) by push_cast; ring]
      rw [zpow_natCast]
      norm_num
    rw [hpq, hc]
    exact mul_lt_mul_of_pos_right hEu (hzp _)
  obtain ⟨hd1, hd2⟩ := natDiv_cast_bounds p q hq
  have hn_lo : 2 ^ 23 ≤ p / q := by
    have : ((2 ^ 23 : Nat) : ℚ) < ((p / q : Nat) : ℚ) + 1 := lt_of_le_of_lt hs_lo hd2
    have h2 : (2 ^ 23 : Nat) < p / q + 1 := by exact_mod_cast this
    omega
  have hn_hi : p / q < 2 ^ 24 := by
    have : ((p / q : Nat) : ℚ) < ((2 ^ 24 : Nat) : ℚ) := lt_of_le_of_lt hd1 hs_hi
    exact_mod_cast this
  obtain ⟨hm1, hm2, hm3⟩ := rnd_half_int p q hq
  refine ⟨by omega, by omega, ?_⟩
  have hba : (a : ℚ) / b = ((p : ℚ) / q) * 2 ^ (E - 23) := by
    rw [hpq, mul_assoc, ← zpow_add₀ (two_ne_zero)]
    rw [show (23 : ℤ) - E + (E - 23) = 0 by ring]
    norm_num
  calc |((rnHalf p q : Nat) : ℚ) * 2 ^ (E - 23) - (a : ℚ) / b|
      = |((rnHalf p q : Nat) : ℚ) - (p : ℚ) / q| * 2 ^ (E - 23) := by
        rw [hba, ← sub_mul, abs_mul, abs_of_pos (hzp _)]
    _ ≤ (1 / 2) * 2 ^ (E - 23) :=
        mul_le_mul_of_nonneg_right hm3 (le_of_lt (hzp _))
    _ = 2 ^ (E - 24) := by
        rw [show E - 24 = (E - 23) + (-1 : ℤ) by ring,
          zpow_add₀ (two_ne_zero : (2:ℚ) ≠ 0)]
        rw [zpow_neg_one]
        ring
    _ ≤ ((a : ℚ) / b) / 2 ^ 24 := by
        have h24 : ((a : ℚ) / b) / 2 ^ 24 = ((a : ℚ) / b) * 2 ^ ((-24 : ℤ)) := by
          rw [zpow_neg, div_eq_mul_inv]
          congr 1
          congr 1
          rw [show ((24 : ℤ)) = ((24 : ℕ) : ℤ) by norm_num, zpow_natCast]
        rw [h24, show E - 24 = E + (-24 : ℤ) by ring,
          zpow_add₀ (two_ne_zero : (2:ℚ) ≠ 0)]
        exact mul_le_mul_of_nonneg_right hEl (le_of_lt (hzp _))

theorem rn32Rat_spec (a b : Nat) (ha : 1 ≤ a) (hb : 1 ≤ b) :
    2 ^ 23 ≤ (rn32Rat a b).1 ∧ (rn32Rat a b).1 ≤ 2 ^ 24 ∧
    |val32 (rn32Rat a b) - (a : ℚ) / b| ≤ ((a : ℚ) / b) / 2 ^ 24 := by
  obtain ⟨hEl, hEu⟩ := floorLog2Q_spec a b ha hb
  by_cases hE : floorLog2Q a b ≤ 23
  · set N := (23 - floorLog2Q a b).toNat with hN
    have hu : (N : Int) = 23 - floorLog2Q a b := Int.toNat_of_nonneg (by omega)
    have hfst : (rn32Rat a b).1 = rnHalf (a * 2 ^ N) b := by
      simp only [rn32Rat, if_pos hE]
    have hval : val32 (rn32Rat a b) =
        ((rnHalf (a * 2 ^ N) b : Nat) : ℚ) * 2 ^ (floorLog2Q a b - 23) := by
      simp only [val32, rn32Rat, if_pos hE]
    have hpq : ((a * 2 ^ N : Nat) : ℚ) / b =
        ((a : ℚ) / b) * 2 ^ ((23 : ℤ) - floorLog2Q a b) := by
      rw [← hu, zpow_natCast]
      push_cast
      ring
    obtain ⟨h1, h2, h3⟩ :=
      rn32_core a b (a * 2 ^ N) b (floorLog2Q a b) (by omega) hb hEl hEu hpq
    refine ⟨hfst ▸ h1, hfst ▸ h2, ?_⟩
    rw [hval]
    exact h3
  · set N := (floorLog2Q a b - 23).toNat with hN
    have hu : (N : Int) = floorLog2Q a b - 23 := Int.toNat_of_nonneg (by omega)
    have hfst : (rn32Rat a b).1 = rnHalf a (b * 2 ^ N) := by
      simp only [rn32Rat, if_neg hE]
    have hval : val32 (rn32Rat a b) =
        ((rnHalf a (b * 2 ^ N) : Nat) : ℚ) * 2 ^ (floorLog2Q a b - 23) := by
      simp only [val32, rn32Rat, if_neg hE]
    have hq : 0 < b * 2 ^ N := by positivity
    have hpq : (a : ℚ) / ((b * 2 ^ N : Nat) : ℚ) =
        ((a : ℚ) / b) * 2 ^ ((23 : ℤ) - floorLog2Q a b) := by
      rw [show ((23 : ℤ) - floorLog2Q a b) = -(N : ℤ) by rw [hu]; ring]
      rw [zpow_neg, zpow_natCast]
      push_cast
      rw [div_mul_eq_div_div]
      rw [div_eq_mul_inv ((a : ℚ) / b) ((2 : ℚ) ^ N)]
    obtain ⟨h1, h2, h3⟩ :=
      rn32_core a b a (b * 2 ^ N) (floorLog2Q a b) hq hb hEl hEu hpq
    refine ⟨hfst ▸ h1, hfst ▸ h2, ?_⟩
    rw [hval]
    exact h3

theorem f32ofNat_exact (k : Nat) (h1 : 1 ≤ k) (h2 : k ≤ 2 ^ 24) :
    val32 (f32ofNat k) = k ∧ 2 ^ 23 ≤ (f32ofNat k).1 := by
  have hmant := (rn32Rat_spec k 1 h1 (Nat.le_refl 1)).1
  refine ⟨?_, hmant⟩
  obtain ⟨hEl, hEu⟩ := floorLog2Q_spec k 1 h1 (Nat.le_refl 1)
  rw [Nat.cast_one, div_one] at hEl hEu
  have hk1 : (1 : ℚ) ≤ (k : ℚ) := by exact_mod_cast h1
  have hk2 : (k : ℚ) ≤ (2 : ℚ) ^ ((24 : ℕ) : ℤ) := by
    rw [zpow_natCast]
    exact_mod_cast h2
  have hE24 : floorLog2Q k 1 ≤ 24 := by
    have := le_trans hEl hk2
    exact (zpow_le_zpow_iff_right₀ (by norm_num : (1:ℚ) < 2)).mp this
  have hE0 : 0 ≤ floorLog2Q k 1 := by
    have h01 : (2 : ℚ) ^ ((0 : ℕ) : ℤ) ≤ (k : ℚ) := by
      rw [zpow_natCast]
      simpa using hk1
    have := lt_of_le_of_lt h01 hEu
    have := (zpow_lt_zpow_iff_right₀ (by norm_num : (1:ℚ) < 2)).mp this
    omega
  by_cases hE : floorLog2Q k 1 ≤ 23
  · set N := (23 - floorLog2Q k 1).toNat with hN
    have hu : (N : Int) = 23 - floorLog2Q k 1 := Int.toNat_of_nonneg (by omega)
    have hfr : f32ofNat k = (rnHalf (k * 2 ^ N) 1, floorLog2Q k 1 - 23) := by
      simp only [f32ofNat, rn32Rat, if_pos hE]
    have hm0 : k * 2 ^ N % 1 = 0 := Nat.mod_one _
    have hrh : rnHalf (k * 2 ^ N) 1 = k * 2 ^ N := by
      unfold rnHalf
      rw [hm0]
      simp
    rw [hfr]
    unfold val32
    rw [hrh]
    push_cast
    rw [show ((2 : ℚ) ^ N : ℚ) = (2 : ℚ) ^ ((N : ℕ) : ℤ) from
      (zpow_natCast 2 N).symm]
    rw [mul_assoc, ← zpow_add₀ (two_ne_zero : (2:ℚ) ≠ 0), hu]
    norm_num
  · have hE24eq : floorLog2Q k 1 = 24 := by omega
    have hk24 : 2 ^ 24 ≤ k := by
      rw [hE24eq, show ((24 : ℤ)) = ((24 : ℕ) : ℤ) by norm_num,
        zpow_natCast] at hEl
      exact_mod_cast hEl
    have hkeq : k = 2 ^ 24 := by omega
    subst hkeq
    rw [show f32ofNat (2 ^ 24) = (8388608, 1) from by decide]
    unfold val32
    norm_num

theorem f32div_spec (x y : Nat × Int) (hx : 1 ≤ x.1) (hy : 1 ≤ y.1) :
    2 ^ 23 ≤ (f32div x y).1 ∧ (f32div x y).1 ≤ 2 ^ 24 ∧
    |val32 (f32div x y) - val32 x / val32 y| ≤ (val32 x / val32 y) / 2 ^ 24 := by
  obtain ⟨h1, h2, h3⟩ := rn32Rat_spec x.1 y.1 hx hy
  have hzp : ∀ z : Int, (0 : ℚ) < 2 ^ z := fun z => zpow_pos (by norm_num) z
  refine ⟨h1, h2, ?_⟩
  have hvd : val32 (f32div x y) =
      val32 (rn32Rat x.1 y.1) * 2 ^ (x.2 - y.2) := by
    have hexp : (rn32Rat x.1 y.1).2 + x.2 - y.2 =
        (rn32Rat x.1 y.1).2 + (x.2 - y.2) := by ring
    simp only [f32div, val32]
    rw [hexp, mul_assoc, ← zpow_add₀ (two_ne_zero : (2:ℚ) ≠ 0)]
  have hq : val32 x / val32 y = ((x.1 : ℚ) / y.1) * 2 ^ (x.2 - y.2) := by
    simp only [val32]
    rw [zpow_sub₀ (two_ne_zero : (2:ℚ) ≠ 0)]
    have hy0 : ((y.1 : ℚ)) ≠ 0 := by
      have : (0:ℚ) < y.1 := by exact_mod_cast hy
      exact ne_of_gt this
    have h2y : ((2:ℚ) ^ y.2) ≠ 0 := ne_of_gt (hzp _)
    field_simp
  rw [hvd, hq, ← sub_mul, abs_mul, abs_of_pos (hzp _)]
  calc |val32 (rn32Rat x.1 y.1) - (x.1 : ℚ) / y.1| * 2 ^ (x.2 - y.2)
      ≤ (((x.1 : ℚ) / y.1) / 2 ^ 24) * 2 ^ (x.2 - y.2) :=
        mul_le_mul_of_nonneg_right h3 (le_of_lt (hzp _))
    _ = ((x.1 : ℚ) / y.1) * 2 ^ (x.2 - y.2) / 2 ^ 24 := by ring

theorem truncF32_bounds (x : Nat × Int) (h : val32 x ≤ 2 ^ 31) :
    ((truncF32 x : Nat) : ℚ) ≤ val32 x ∧ val32 x < ((truncF32 x : Nat) : ℚ) + 1 := by
  have h31 : ((2 ^ 31 : Nat) : ℚ) = (2 : ℚ) ^ (31 : ℕ) := by push_cast; ring
  unfold truncF32
  split_ifs with he
  · set t := x.2.toNat with htdef
    have hxt : x.2 = (t : ℤ) := (Int.toNat_of_nonneg he).symm
    have hev : val32 x = ((x.1 * 2 ^ t : Nat) : ℚ) := by
      unfold val32
      rw [hxt, zpow_natCast]
      push_cast
      ring
    have hle : x.1 * 2 ^ t ≤ 2 ^ 31 := by
      have hh := h
      rw [hev, ← h31] at hh
      exact_mod_cast hh
    have hmin : min (x.1 * 2 ^ t) (2 ^ 32 - 1) = x.1 * 2 ^ t := by
      have : x.1 * 2 ^ t ≤ 2 ^ 32 - 1 := by omega
      exact Nat.min_eq_left this
    rw [hmin, hev]
    constructor
    · exact le_refl _
    · exact lt_add_one _
  · set u := (-x.2).toNat with hudef
    have hu : (u : Int) = -x.2 := Int.toNat_of_nonneg (by omega)
    have hq : 0 < 2 ^ u := Nat.pos_pow_of_pos u (by norm_num)
    have hev : val32 x = (x.1 : ℚ) / ((2 ^ u : Nat) : ℚ) := by
      unfold val32
      rw [show x.2 = -(u : ℤ) by omega, zpow_neg, zpow_natCast]
      rw [div_eq_mul_inv]
      push_cast
      ring
    obtain ⟨hd1, hd2⟩ := natDiv_cast_bounds x.1 (2 ^ u) hq
    have hle : x.1 / 2 ^ u ≤ 2 ^ 31 := by
      have hh : ((x.1 / 2 ^ u : Nat) : ℚ) ≤ ((2 ^ 31 : Nat) : ℚ) := by
        rw [h31]
        calc ((x.1 / 2 ^ u : Nat) : ℚ) ≤ (x.1 : ℚ) / ((2 ^ u : Nat) : ℚ) := hd1
          _ = val32 x := hev.symm
          _ ≤ 2 ^ 31 := h
      exact_mod_cast hh
    have hmin : min (x.1 / 2 ^ u) (2 ^ 32 - 1) = x.1 / 2 ^ u := by
      have : x.1 / 2 ^ u ≤ 2 ^ 32 - 1 := by omega
      exact Nat.min_eq_left this
    rw [hmin, hev]
    exact ⟨hd1, hd2⟩

set_option maxHeartbeats 1000000 in
theorem short_side_bounds (lo hi : Nat) (h1 : 1 ≤ lo) (h2 : lo ≤ hi)
    (h3 : hi ≤ 2 ^ 24) :
    truncF32 (f32div (f32ofNat lo) (f32div (f32ofNat hi) (f32ofNat 1280))) ≤ 1280 ∧
    truncF32 (f32div (f32ofNat lo) (f32div (f32ofNat hi) (f32ofNat 1280))) ≤
      lo * 1280 / hi + 1 ∧
    lo * 1280 / hi ≤
      truncF32 (f32div (f32ofNat lo) (f32div (f32ofNat hi) (f32ofNat 1280))) + 1 := by
  have hhi1 : 1 ≤ hi := le_trans h1 h2
  have hhi0 : (0 : ℚ) < hi := by exact_mod_cast hhi1
  have hlo0 : (0 : ℚ) < lo := by exact_mod_cast h1
  have hloQ : (lo : ℚ) ≤ hi := by exact_mod_cast h2
  obtain ⟨hloV, hloM⟩ := f32ofNat_exact lo h1 (le_trans h2 h3)
  obtain ⟨hhiV, hhiM⟩ := f32ofNat_exact hi hhi1 h3
  obtain ⟨hImV, hImM⟩ := f32ofNat_exact 1280 (by norm_num) (by norm_num)
  have hpow24 : ((2 : ℚ) ^ (24 : ℕ)) = 16777216 := by norm_num
  obtain ⟨hrM1, -, hrErr⟩ :=
    f32div_spec (f32ofNat hi) (f32ofNat 1280) (by omega) (by omega)
  rw [hhiV, hImV, hpow24] at hrErr
  obtain ⟨-, -, hqErr⟩ :=
    f32div_spec (f32ofNat lo) (f32div (f32ofNat hi) (f32ofNat 1280))
      (by omega) (by omega)
  rw [hloV, hpow24] at hqErr
  set rv := val32 (f32div (f32ofNat hi) (f32ofNat 1280)) with hrvdef
  set qv := val32 (f32div (f32ofNat lo) (f32div (f32ofNat hi) (f32ofNat 1280)))
    with hqvdef
  set r0 : ℚ := (hi : ℚ) / ((1280 : ℕ) : ℚ) with hr0def
  have hr0pos : 0 < r0 := by rw [hr0def]; positivity
  obtain ⟨hA2, hA1⟩ := abs_le.mp hrErr
  have hrlo : r0 * (1 - 1 / 16777216) ≤ rv := by linarith
  have hrhi : rv ≤ r0 * (1 + 1 / 16777216) := by linarith
  have hrvpos : 0 < rv := by linarith
  set u : ℚ := (lo : ℚ) / rv with hudef
  have hupos : 0 ≤ u := by rw [hudef]; positivity
  have hurv : u * rv = lo := by
    rw [hudef]
    exact div_mul_cancel₀ _ (ne_of_gt hrvpos)
  set v : ℚ := (lo : ℚ) * 1280 / hi with hvdef
  have hv0 : 0 ≤ v := by rw [hvdef]; positivity
  have hvr0 : v * r0 = lo := by
    rw [hvdef, hr0def]
    push_cast
    field_simp
  have hv1280 : v ≤ 1280 := by
    rw [hvdef, div_le_iff hhi0]
    linarith
  obtain ⟨hB2, hB1⟩ := abs_le.mp hqErr
  have hq_hi : qv ≤ u * (1 + 1 / 16777216) := by linarith
  have hq_lo : u * (1 - 1 / 16777216) ≤ qv := by linarith
  have t1 : u * (r0 * (1 - 1 / 16777216)) ≤ v * r0 := by
    calc u * (r0 * (1 - 1 / 16777216)) ≤ u * rv :=
          mul_le_mul_of_nonneg_left hrlo hupos
      _ = (lo : ℚ) := hurv
      _ = v * r0 := hvr0.symm
  have t2 : v * r0 ≤ u * (r0 * (1 + 1 / 16777216)) := by
    calc v * r0 = (lo : ℚ) := hvr0
      _ = u * rv := hurv.symm
      _ ≤ u * (r0 * (1 + 1 / 16777216)) :=
          mul_le_mul_of_nonneg_left hrhi hupos
  have huv1 : u * (1 - 1 / 16777216) ≤ v := by
    have hh : u * (1 - 1 / 16777216) * r0 ≤ v * r0 := by linarith [t1]
    exact (mul_le_mul_right hr0pos).mp hh
  have huv2 : v ≤ u * (1 + 1 / 16777216) := by
    have hh : v * r0 ≤ u * (1 + 1 / 16777216) * r0 := by linarith [t2]
    exact (mul_le_mul_right hr0pos).mp hh
  have hu_hi : u ≤ v * (1 + 2 / 16777216) := by
    have s1 : u ≤ u * ((1 - 1 / 16777216) * (1 + 2 / 16777216)) := by
      nlinarith [hupos]
    have s3 : u * (1 - 1 / 16777216) * (1 + 2 / 16777216) ≤
        v * (1 + 2 / 16777216) :=
      mul_le_mul_of_nonneg_right huv1 (by norm_num)
    linarith [s1, s3]
  have hu_lo : v * (1 - 1 / 16777216) ≤ u := by
    have s1 : v * (1 - 1 / 16777216) ≤
        u * (1 + 1 / 16777216) * (1 - 1 / 16777216) :=
      mul_le_mul_of_nonneg_right huv2 (by norm_num)
    nlinarith [s1, hupos]
  have hqv_hi : qv ≤ v + 1 / 2 := by
    have s1 : u * (1 + 1 / 16777216) ≤
        v * (1 + 2 / 16777216) * (1 + 1 / 16777216) :=
      mul_le_mul_of_nonneg_right hu_hi (by norm_num)
    nlinarith [hq_hi, s1, hv0, hv1280]
  have hqv_lo : v - 1 / 2 ≤ qv := by
    have s1 : v * (1 - 1 / 16777216) * (1 - 1 / 16777216) ≤
        u * (1 - 1 / 16777216) :=
      mul_le_mul_of_nonneg_right hu_lo (by norm_num)
    nlinarith [hq_lo, s1, hv0, hv1280]
  have hqv31 : val32 (f32div (f32ofNat lo)
      (f32div (f32ofNat hi) (f32ofNat 1280))) ≤ 2 ^ 31 := by
    rw [← hqvdef, show ((2 : ℚ) ^ (31 : ℕ)) = 2147483648 by norm_num]
    linarith [hqv_hi, hv1280]
  obtain ⟨ht1, ht2⟩ := truncF32_bounds
    (f32div (f32ofNat lo) (f32div (f32ofNat hi) (f32ofNat 1280))) hqv31
  rw [← hqvdef] at ht1 ht2
  obtain ⟨hs1, hs2⟩ := natDiv_cast_bounds (lo * 1280) hi (by omega)
  have hveq : ((lo * 1280 : Nat) : ℚ) / hi = v := by
    rw [hvdef]
    push_cast
    ring
  rw [hveq] at hs1 hs2
  refine ⟨?_, ?_, ?_⟩
  · have hq : ((truncF32 (f32div (f32ofNat lo)
        (f32div (f32ofNat hi) (f32ofNat 1280))) : Nat) : ℚ) < 1281 := by
      linarith [ht1, hqv_hi, hv1280]
    have hn : truncF32 (f32div (f32ofNat lo)
        (f32div (f32ofNat hi) (f32ofNat 1280))) < 1281 := by exact_mod_cast hq
    omega
  · have hq : ((truncF32 (f32div (f32ofNat lo)
        (f32div (f32ofNat hi) (f32ofNat 1280))) : Nat) : ℚ) <
        ((lo * 1280 / hi : Nat) : ℚ) + 2 := by
      linarith [ht1, hqv_hi, hs2]
    have hn : truncF32 (f32div (f32ofNat lo)
        (f32div (f32ofNat hi) (f32ofNat 1280))) < lo * 1280 / hi + 2 := by
      exact_mod_cast hq
    omega
  · have hq : ((lo * 1280 / hi : Nat) : ℚ) <
        ((truncF32 (f32div (f32ofNat lo)
          (f32div (f32ofNat hi) (f32ofNat 1280))) : Nat) : ℚ) + 2 := by
      linarith [hs1, hqv_lo, ht2]
    have hn : lo * 1280 / hi < truncF32 (f32div (f32ofNat lo)
        (f32div (f32ofNat hi) (f32ofNat 1280))) + 2 := by exact_mod_cast hq
    omega

/-- C7 counterexample.  At a decodable 10267 by 8366 image the bit-exact
f32 chain gives shorter side 1044: the ratio 10267/1280 rounds to the f32
8.021093368530273..., the quotient 8366 / ratio rounds to exactly 1043.0,
truncation gives 1043 and the even round-up 1044 — while the exact-ratio
value of the original claim is evenUp (8366 * 1280 / 10267) =
evenUp 1042 = 1042.  The two differ, refuting the claim that the shorter
side is the exact-ratio-scaled value rounded up to even. -/
theorem resize_dims_f32_counterexample :
    resize_dims_f32 10267 8366 1280 = (1280, 1044) ∧
    evenUp (8366 * 1280 / 10267) = 1042 ∧
    (resize_dims_f32 10267 8366 1280).2 ≠ evenUp (8366 * 1280 / 10267) :=
  ⟨by decide, by decide, by decide⟩

/-- C7 (amended).  For imgsz = 1280 (the value `run` hardwires) and
decodable dimensions (positive, at most 2^24 so the f32 casts are
exact): the side the source compares as larger is output exactly 1280,
both output sides are even, the shorter output side is at most 1280,
and it is the even round-up of the truncated f32 quotient, which stays
within 2 of the even round-up of the exact-ratio-scaled value
`evenUp (short * 1280 / long)` — but, by the counterexample, is not
always equal to it. -/
theorem resize_dims_f32_spec (w h : Nat) (hw : 1 ≤ w) (hh : 1 ≤ h)
    (hw24 : w ≤ 2 ^ 24) (hh24 : h ≤ 2 ^ 24) :
    (if h < w then (resize_dims_f32 w h 1280).1 = 1280
     else (resize_dims_f32 w h 1280).2 = 1280) ∧
    (resize_dims_f32 w h 1280).1 % 2 = 0 ∧
    (resize_dims_f32 w h 1280).2 % 2 = 0 ∧
    (if h < w then
      (resize_dims_f32 w h 1280).2 ≤ 1280 ∧
      (resize_dims_f32 w h 1280).2 ≤ evenUp (h * 1280 / w) + 2 ∧
      evenUp (h * 1280 / w) ≤ (resize_dims_f32 w h 1280).2 + 2
     else
      (resize_dims_f32 w h 1280).1 ≤ 1280 ∧
      (resize_dims_f32 w h 1280).1 ≤ evenUp (w * 1280 / h) + 2 ∧
      evenUp (w * 1280 / h) ≤ (resize_dims_f32 w h 1280).1 + 2) := by
  by_cases hlt : h < w
  · obtain ⟨b1, b2, b3⟩ := short_side_bounds h w hh (le_of_lt hlt) hw24
    rw [if_pos hlt, if_pos hlt]
    unfold resize_dims_f32
    rw [if_pos hlt]
    simp only [evenUp]
    set R := truncF32 (f32div (f32ofNat h) (f32div (f32ofNat w) (f32ofNat 1280)))
      with hR
    exact ⟨trivial, trivial, by omega, by omega, by omega, by omega⟩
  · obtain ⟨b1, b2, b3⟩ := short_side_bounds w h hw (by omega) hh24
    rw [if_neg hlt, if_neg hlt]
    unfold resize_dims_f32
    rw [if_neg hlt]
    simp only [evenUp]
    set R := truncF32 (f32div (f32ofNat w) (f32div (f32ofNat h) (f32ofNat 1280)))
      with hR
    exact ⟨trivial, by omega, trivial, by omega, by omega, by omega⟩

/-- A witness for C7 at a 4000 by 3000 image: the larger side becomes
1280 and the shorter side is even. -/
theorem resize_dims_f32_spec_witness :
    (resize_dims_f32 4000 3000 1280).1 = 1280 ∧
    (resize_dims_f32 4000 3000 1280).2 % 2 = 0 := by
  have hmain := resize_dims_f32_spec 4000 3000 (by norm_num) (by norm_num)
    (by norm_num) (by norm_num)
  refine ⟨?_, hmain.2.2.1⟩
  have h1 := hmain.1
  rw [if_pos (by norm_num : (3000 : Nat) < 4000)] at h1
  exact h1

/-! ### C4: exit code for checkpoint 0 -/

/-- C4 counterexample.  With checkpoint interval 0 the gate rejects the
configuration, yet `run` returns `Ok(())` and the process exits 0 — even
when the pipeline, had it run, would have failed — contradicting the
claimed non-zero exit code. -/
theorem checkpoint_zero_counterexample :
    checkpointGate 0 = RunOutcome.configRejected ∧
    mainExitCode (runReturn 0 (Except.error "pipeline failed")) = 0 := by
  exact ⟨rfl, rfl⟩

/-- C4 (amended).  A checkpoint interval of 0 makes `run` log an error
and return before the pipeline starts, but the early return is `Ok(())`,
so the process exit code is 0, not non-zero. -/
theorem checkpoint_zero_gate (pipelineResult : Except String Unit) :
    checkpointGate 0 = RunOutcome.configRejected ∧
    runReturn 0 pipelineResult = Except.ok () ∧
    mainExitCode (runReturn 0 pipelineResult) = 0 :=
  ⟨rfl, rfl, rfl⟩

/-! ### C5: which dimensions a Frame carries -/

/-- C5 counterexample.  A decoded 4000 by 3000 still yields post-resize
dimensions 1280 by 960, but the emitted Frame — and hence the outgoing
DetectRequest — carries width 4000, the pre-resize value. -/
theorem frame_dims_counterexample :
    (mkImageFrame ⟨0, 0, "a.jpg", "a.jpg"⟩ 4000 3000 [] none).width = 4000 ∧
    (resize_dims 4000 3000 1280).1 = 1280 ∧
    (mkImageFrame ⟨0, 0, "a.jpg", "a.jpg"⟩ 4000 3000 [] none).width ≠
      (resize_dims 4000 3000 1280).1 ∧
    (mkDetectRequest "u" (mkImageFrame ⟨0, 0, "a.jpg", "a.jpg"⟩ 4000 3000 [] none)
        0 0).width = 4000 := by
  refine ⟨rfl, by decide, by decide, ?_⟩
  show usizeAsI32 4000 = 4000
  decide

/-- C5 (amended).  The width and height a Frame carries, and those placed
in the DetectRequest built from it, are the pre-resize dimensions: for a
still, the decoded image dimensions; for a video, the input-stream
dimensions the container reported — never those of the resized encoded
image. -/
theorem frame_dims_pre_resize (file : FileItem) (w h inW inH idx tot : Nat)
    (webp : List Nat) (shoot : Option String) (u : String) (iou conf : Rat) :
    (mkImageFrame file w h webp shoot).width = w ∧
    (mkImageFrame file w h webp shoot).height = h ∧
    (mkVideoFrame file inW inH webp idx tot shoot).width = inW ∧
    (mkVideoFrame file inW inH webp idx tot shoot).height = inH ∧
    (mkDetectRequest u (mkImageFrame file w h webp shoot) iou conf).width =
      usizeAsI32 w ∧
    (mkDetectRequest u (mkImageFrame file w h webp shoot) iou conf).height =
      usizeAsI32 h :=
  ⟨rfl, rfl, rfl, rfl, rfl, rfl⟩

/-! ### C1: inbound response with an unknown uuid -/

/-- C1 counterexample.  In the binary (`run`, src/main.rs line 362) an
inbound DetectResponse whose uuid is not in the correlation map hits
`frames.remove(&uuid).unwrap()`: the step has no successor state — the
receive loop panics instead of continuing. -/
theorem unknown_uuid_panics_in_run :
    stepRun true initState
      (PipeEvent.response { uuid := "u1", label := "animal", bboxs := [] }) =
      none := rfl

/-- C1 (amended).  The library pipeline (`process`, src/lib.rs
lines 220-241) checks the lookup with `if let`: a response whose uuid
misses the correlation map leaves the map untouched and sends nothing to
the exporter, silently continuing; the binary (`run`, src/main.rs) instead
unwraps the lookup and panics on such a response. -/
theorem unknown_uuid_dropped_in_lib (pending : List (String × ExportFrame))
    (r : DetectResponse) (hmiss : alLookup pending r.uuid = none) :
    processResponseLib pending r = (pending, none) := by
  unfold processResponseLib
  rw [hmiss]

/-- A witness for C1 (amended): an empty correlation map drops any
response. -/
theorem unknown_uuid_dropped_in_lib_witness :
    processResponseLib []
      { uuid := "u9", label := "animal", bboxs := [] } = ([], none) :=
  unknown_uuid_dropped_in_lib [] _ rfl

/-! ### The pipeline invariant behind C6 and C10 -/

/-- Every value held by the correlation map is a pending frame built by
the outbound stream. -/
def pendingOK (io : Bool) (m : List (String × ExportFrame)) : Prop :=
  ∀ kv ∈ m, ∃ f : Frame, kv.2 = mkPendingFrame io f

/-- Every frame pushed onto the exporter channel is either an error
record or a response-filled pending frame. -/
def sentOK (io : Bool) (l : List ExportFrame) : Prop :=
  ∀ ef ∈ l, (∃ e : ErrFile, ef = mkErrExportFrame e) ∨
    (∃ (f : Frame) (r : DetectResponse),
      ef = fillResponse (mkPendingFrame io f) r)

theorem stepRun_inv {io : Bool} {s s2 : PipeState} {e : PipeEvent}
    (hp : pendingOK io s.pending) (hs : sentOK io s.sent)
    (h : stepRun io s e = some s2) :
    pendingOK io s2.pending ∧ sentOK io s2.sent := by
  cases e with
  | media item uuid =>
    cases item with
    | frame f =>
      cases h
      constructor
      · intro kv hkv
        rcases List.mem_cons.mp hkv with hkv | hkv
        · exact ⟨f, by rw [hkv]⟩
        · exact hp kv (alErase_subset s.pending uuid kv hkv)
      · exact hs
    | errFile er =>
      cases h
      constructor
      · exact hp
      · intro ef hef
        rcases List.mem_cons.mp hef with hef | hef
        · exact Or.inl ⟨er, hef⟩
        · exact hs ef hef
  | response r =>
    cases hlook : alLookup s.pending r.uuid with
    | none => simp [stepRun, hlook] at h
    | some p =>
      simp only [stepRun, hlook] at h
      cases h
      obtain ⟨f, hf⟩ := hp (r.uuid, p) (alLookup_mem s.pending r.uuid p hlook)
      have hp2 : p = mkPendingFrame io f := hf
      constructor
      · intro kv hkv
        exact hp kv (alErase_subset s.pending r.uuid kv hkv)
      · intro ef hef
        rcases List.mem_cons.mp hef with hef | hef
        · exact Or.inr ⟨f, r, by rw [hef, hp2]⟩
        · exact hs ef hef

theorem runTrace_inv {io : Bool} :
    ∀ (evs : List PipeEvent) (s s2 : PipeState),
      pendingOK io s.pending → sentOK io s.sent →
      runTrace io s evs = some s2 →
      pendingOK io s2.pending ∧ sentOK io s2.sent := by
  intro evs
  induction evs with
  | nil =>
    intro s s2 hp hs h
    cases h
    exact ⟨hp, hs⟩
  | cons e es ih =>
    intro s s2 hp hs h
    cases hstep : stepRun io s e with
    | none => simp [runTrace, hstep] at h
    | some s1 =>
      simp only [runTrace, hstep] at h
      obtain ⟨hp1, hs1⟩ := stepRun_inv hp hs hstep
      exact ih s1 s2 hp1 hs1 h

/-! ### C6: the exporter-channel invariant -/

/-- C6.  In any run of the bridge, every ExportFrame handed to the
exporter satisfies: if bboxes is set then label is set, and if error is
set then frame_index and total_frames are both 0 (bboxes and label
unset). -/
theorem export_frame_invariant (io : Bool) (evs : List PipeEvent)
    (s : PipeState) (h : runTrace io initState evs = some s) :
    ∀ ef ∈ s.sent,
      (ef.bboxes.isSome → ef.label.isSome) ∧
      (ef.error.isSome →
        ef.frame_index = 0 ∧ ef.total_frames = 0 ∧
        ef.bboxes = none ∧ ef.label = none) := by
  have hinit_p : pendingOK io initState.pending := by
    intro kv hkv; cases hkv
  have hinit_s : sentOK io initState.sent := by
    intro ef hef; cases hef
  obtain ⟨-, hsent⟩ := runTrace_inv evs initState s hinit_p hinit_s h
  intro ef hef
  rcases hsent ef hef with ⟨e, rfl⟩ | ⟨f, r, rfl⟩
  · refine ⟨fun hb => ?_, fun _ => ⟨rfl, rfl, rfl, rfl⟩⟩
    simp [mkErrExportFrame] at hb
  · refine ⟨fun _ => rfl, fun he => ?_⟩
    simp [fillResponse, mkPendingFrame] at he

/-- A sample file item for the concrete witness traces. -/
def exFile : FileItem := { folder_id := 1, file_id := 2, file_path := "p", tmp_path := "p" }

/-- A sample successfully encoded frame for the witness traces. -/
def exFrame : Frame :=
  { file := exFile, webp := [1, 2], width := 4000, height := 3000
    iframe_index := 0, total_frames := 1, shoot_time := none }

/-- A sample failed file for the witness traces. -/
def exErr : ErrFile := { file := exFile, error := "decode failed" }

/-- A sample detection response for the witness traces. -/
def exResp : DetectResponse :=
  { uuid := "u1", label := "animal"
    bboxs := [{ x1 := 0, y1 := 0, x2 := 1, y2 := 1, cls := 0, score := 9 / 10 }] }

/-- A witness for C6: in a run with one error file, one frame and its
response, the filled frame has its label set and the error record has
zero frame_index and total_frames with bboxes and label unset. -/
theorem export_frame_invariant_witness :
    (fillResponse (mkPendingFrame true exFrame) exResp).label.isSome ∧
    (mkErrExportFrame exErr).frame_index = 0 ∧
    (mkErrExportFrame exErr).total_frames = 0 ∧
    (mkErrExportFrame exErr).bboxes = none ∧
    (mkErrExportFrame exErr).label = none := by
  have h := export_frame_invariant true
    [PipeEvent.media (WebpItem.errFile exErr) "u0",
     PipeEvent.media (WebpItem.frame exFrame) "u1",
     PipeEvent.response exResp]
    { pending := []
      sent := [fillResponse (mkPendingFrame true exFrame) exResp,
               mkErrExportFrame exErr] }
    rfl
  have hfill := h (fillResponse (mkPendingFrame true exFrame) exResp)
    (List.mem_cons_self _ _)
  have herr := h (mkErrExportFrame exErr)
    (List.mem_cons_of_mem _ (List.mem_cons_self _ _))
  exact ⟨hfill.1 rfl, (herr.2 rfl).1, (herr.2 rfl).2.1,
    (herr.2 rfl).2.2.1, (herr.2 rfl).2.2.2⟩

/-! ### C3: which files the resume reader removes -/

theorem countRecords_append_single (pre : List ExportFrame)
    (g : ExportFrame) (f : FileItem) :
    countRecords (pre ++ [g]) f =
      countRecords pre f + (if g.file = f then 1 else 0) := by
  unfold countRecords
  rw [List.filter_append, List.length_append]
  congr 1
  by_cases h : g.file = f <;> simp [h]

theorem firstTotal_append_single (pre : List ExportFrame)
    (g : ExportFrame) (f : FileItem) :
    firstTotal (pre ++ [g]) f =
      match firstTotal pre f with
      | some t => some t
      | none => if g.file = f then some g.total_frames else none := by
  induction pre with
  | nil =>
    by_cases h : g.file = f <;> simp [firstTotal, List.find?, h]
  | cons a pre ih =>
    by_cases ha : a.file = f
    · simp [firstTotal, List.find?, ha]
    · simp only [List.cons_append]
      simp only [firstTotal, List.find?, ha, decide_eq_true_eq,
        decide_False] at ih ⊢
      simpa [ha] using ih

theorem firstTotal_none_iff (pre : List ExportFrame) (f : FileItem) :
    firstTotal pre f = none ↔ countRecords pre f = 0 := by
  induction pre with
  | nil => simp [firstTotal, countRecords]
  | cons a pre ih =>
    by_cases ha : a.file = f
    · simp [firstTotal, countRecords, List.find?, ha]
    · simp only [firstTotal, countRecords, List.find?, ha] at ih ⊢
      simpa [ha] using ih

theorem removedCond_congr (fr1 fr2 : List ExportFrame) (f : FileItem)
    (h1 : firstTotal fr1 f = firstTotal fr2 f)
    (h2 : countRecords fr1 f = countRecords fr2 f) :
    removedCond fr1 f ↔ removedCond fr2 f := by
  unfold removedCond
  rw [h1, h2]

/-- The loop invariant of the resume reader: after processing the prefix
`pre` of the parsed records, the count map holds the per-file record
counts seen so far, the totals map holds the first-reported totals, and
the WorkSet retains exactly the files whose running count never reached
their first-reported total. -/
def resumeInv (pre : List ExportFrame) (af : List FileItem)
    (s : ResumeState) : Prop :=
  (∀ f, alLookup s.counts f =
    if countRecords pre f = 0 then none else some (countRecords pre f)) ∧
  (∀ f, alLookup s.totals f = firstTotal pre f) ∧
  (∀ f, f ∈ s.files ↔ f ∈ af ∧ ¬ removedCond pre f)

theorem resumeInv_init (af : List FileItem) :
    resumeInv [] af { counts := [], totals := [], files := af } := by
  refine ⟨fun f => ?_, fun f => rfl, fun f => ?_⟩
  · simp [alLookup, countRecords]
  · simp [removedCond, firstTotal]

theorem resumeInv_step (pre : List ExportFrame) (af : List FileItem)
    (s : ResumeState) (g : ExportFrame) (hinv : resumeInv pre af s) :
    resumeInv (pre ++ [g]) af (resumeStep s g) := by
  obtain ⟨h1, h2, h3⟩ := hinv
  have hc : (alLookup s.counts g.file).getD 0 + 1 =
      countRecords pre g.file + 1 := by
    rw [h1 g.file]
    by_cases h : countRecords pre g.file = 0 <;> simp [h]
  have hcounts : (resumeStep s g).counts =
      alInsert s.counts g.file (countRecords pre g.file + 1) := by
    simp only [resumeStep]
    rw [hc]
  have htotals : (resumeStep s g).totals =
      match firstTotal pre g.file with
      | some _ => s.totals
      | none => alInsert s.totals g.file g.total_frames := by
    simp only [resumeStep]
    rw [h2 g.file]
  have hCg : countRecords (pre ++ [g]) g.file =
      countRecords pre g.file + 1 := by
    rw [countRecords_append_single, if_pos rfl]
  have hCne : ∀ f : FileItem, f ≠ g.file →
      countRecords (pre ++ [g]) f = countRecords pre f := by
    intro f hf
    rw [countRecords_append_single, if_neg (fun h => hf h.symm)]
    omega
  have hTg : firstTotal (pre ++ [g]) g.file =
      some (match firstTotal pre g.file with
            | some t => t
            | none => g.total_frames) := by
    rw [firstTotal_append_single]
    cases firstTotal pre g.file with
    | none => simp
    | some t => rfl
  have hTne : ∀ f : FileItem, f ≠ g.file →
      firstTotal (pre ++ [g]) f = firstTotal pre f := by
    intro f hf
    have hng : ¬ g.file = f := fun h => hf h.symm
    rw [firstTotal_append_single]
    cases firstTotal pre f with
    | none => simp [hng]
    | some t => rfl
  have hLcntg : alLookup (resumeStep s g).counts g.file =
      some (countRecords pre g.file + 1) := by
    rw [hcounts]
    exact alLookup_alInsert_self s.counts g.file _
  have hLcntne : ∀ f : FileItem, f ≠ g.file →
      alLookup (resumeStep s g).counts f = alLookup s.counts f := by
    intro f hf
    rw [hcounts]
    exact alLookup_alInsert_ne s.counts g.file f _ hf
  have hLtotg : alLookup (resumeStep s g).totals g.file =
      some (match firstTotal pre g.file with
            | some t => t
            | none => g.total_frames) := by
    rw [htotals]
    cases hT0 : firstTotal pre g.file with
    | none => exact alLookup_alInsert_self s.totals g.file _
    | some t =>
      rw [h2 g.file, hT0]
  have hLtotne : ∀ f : FileItem, f ≠ g.file →
      alLookup (resumeStep s g).totals f = alLookup s.totals f := by
    intro f hf
    rw [htotals]
    cases hT0 : firstTotal pre g.file with
    | none => exact alLookup_alInsert_ne s.totals g.file f _ hf
    | some t => rfl
  have hfiles : (resumeStep s g).files =
      if (match firstTotal pre g.file with
          | some t => t
          | none => g.total_frames) = countRecords pre g.file + 1
      then s.files.filter (fun x => x ≠ g.file) else s.files := by
    simp only [resumeStep]
    rw [hc, h2 g.file]
    cases hT0 : firstTotal pre g.file with
    | none => simp [alLookup_alInsert_self]
    | some t => simp [alLookup_alInsert_self, h2 g.file, hT0]
  refine ⟨?_, ?_, ?_⟩
  · intro f
    by_cases hf : f = g.file
    · subst hf
      rw [hLcntg, hCg]
      simp
    · rw [hLcntne f hf, hCne f hf]
      exact h1 f
  · intro f
    by_cases hf : f = g.file
    · subst hf
      rw [hLtotg, hTg]
    · rw [hLtotne f hf, hTne f hf]
      exact h2 f
  · intro f
    rw [hfiles]
    by_cases hf : f = g.file
    · subst hf
      by_cases hTeq : (match firstTotal pre g.file with
          | some t => t
          | none => g.total_frames) = countRecords pre g.file + 1
      · rw [if_pos hTeq]
        constructor
        · intro hmem
          have h2m := (List.mem_filter.mp hmem).2
          simp at h2m
        · rintro ⟨-, hnr⟩
          exfalso
          apply hnr
          refine ⟨countRecords pre g.file + 1, ?_, by omega, ?_⟩
          · rw [hTg, hTeq]
          · rw [hCg]
      · rw [if_neg hTeq, h3 g.file]
        have hiff : removedCond (pre ++ [g]) g.file ↔
            removedCond pre g.file := by
          unfold removedCond
          rw [hTg, hCg]
          cases hT0 : firstTotal pre g.file with
          | none =>
            have hc0 : countRecords pre g.file = 0 :=
              (firstTotal_none_iff pre g.file).mp hT0
            simp only [hT0] at hTeq
            rw [hc0] at hTeq ⊢
            constructor
            · rintro ⟨t, ht, h1t, h2t⟩
              simp only [Option.some.injEq] at ht
              omega
            · rintro ⟨t, ht, -, -⟩
              cases ht
          | some t0 =>
            simp only [hT0] at hTeq
            constructor
            · rintro ⟨t, ht, h1t, h2t⟩
              simp only [Option.some.injEq] at ht
              exact ⟨t0, rfl, by omega, by omega⟩
            · rintro ⟨t, ht, h1t, h2t⟩
              simp only [Option.some.injEq] at ht
              exact ⟨t0, rfl, by omega, by omega⟩
        rw [hiff]
    · have hrc : removedCond (pre ++ [g]) f ↔ removedCond pre f :=
        removedCond_congr _ _ f (hTne f hf) (hCne f hf)
      rw [hrc, ← h3 f]
      by_cases hTeq : (match firstTotal pre g.file with
          | some t => t
          | none => g.total_frames) = countRecords pre g.file + 1
      · rw [if_pos hTeq]
        constructor
        · exact fun hmem => (List.mem_filter.mp hmem).1
        · intro hmem
          refine List.mem_filter.mpr ⟨hmem, ?_⟩
          simpa using hf
      · rw [if_neg hTeq]

theorem resumeInv_fold (af : List FileItem) :
    ∀ (frames pre : List ExportFrame) (s : ResumeState),
      resumeInv pre af s →
      resumeInv (pre ++ frames) af (frames.foldl resumeStep s) := by
  intro frames
  induction frames with
  | nil =>
    intro pre s h
    simpa using h
  | cons g fs ih =>
    intro pre s h
    have hstep := resumeInv_step pre af s g h
    have := ih (pre ++ [g]) (resumeStep s g) hstep
    simpa [List.append_assoc] using this

/-- C3 (amended).  A file survives `resume_from_checkpoint` exactly when
it was in the WorkSet and its running record count never reached the
total_frames reported by its first record: removal happens iff the first
record of the file reports a total t with 1 ≤ t and the artifact holds
at least t records for the file — not iff the final count equals the
reported total. -/
theorem resume_membership (frames : List ExportFrame)
    (all_files : List FileItem) (f : FileItem) :
    f ∈ resume_from_checkpoint frames all_files ↔
      f ∈ all_files ∧ ¬ removedCond frames f := by
  have := (resumeInv_fold all_files frames []
    { counts := [], totals := [], files := all_files }
    (resumeInv_init all_files)).2.2 f
  simpa [resume_from_checkpoint] using this

/-- A sample prior-artifact record for the C3 counterexample: one frame
of `exFile` whose reported total_frames is 1. -/
def exRec : ExportFrame :=
  { file := exFile, frame_index := 0, shoot_time := none, total_frames := 1
    is_iframe := true, bboxes := some [], label := some "Blank", error := none }

/-- C3 counterexample.  A prior artifact holding the same record twice
(total_frames 1, observed count 2) removes the file from the WorkSet even
though the observed count differs from the reported total_frames,
refuting the removed-iff-count-equals-total claim in both directions of
its only-if part. -/
theorem resume_count_mismatch_counterexample :
    resume_from_checkpoint [exRec, exRec] [exFile] = [] ∧
    countRecords [exRec, exRec] exFile = 2 ∧
    firstTotal [exRec, exRec] exFile = some 1 ∧ (2 : Nat) ≠ 1 :=
  ⟨rfl, rfl, rfl, by decide⟩

/-- A witness for C3 (amended): the membership characterization
instantiated at a one-record artifact whose file reports total 1. -/
theorem resume_membership_witness :
    exFile ∈ resume_from_checkpoint [exRec] [exFile] ↔
      exFile ∈ [exFile] ∧ ¬ removedCond [exRec] exFile :=
  resume_membership [exRec] [exFile] exFile

/-! ### C10: the is_iframe field -/

/-- C10.  In any run of the bridge with configured flag `io`, every
exported frame of a failed file (error set) has `is_iframe = false`
regardless of `io`, and every exported frame of a successfully encoded
frame (bboxes set) has `is_iframe = io` — the configured iframe_only
flag. -/
theorem is_iframe_flag (io : Bool) (evs : List PipeEvent) (s : PipeState)
    (h : runTrace io initState evs = some s) :
    ∀ ef ∈ s.sent,
      (ef.error.isSome → ef.is_iframe = false) ∧
      (ef.bboxes.isSome → ef.is_iframe = io) := by
  have hinit_p : pendingOK io initState.pending := by
    intro kv hkv; cases hkv
  have hinit_s : sentOK io initState.sent := by
    intro ef hef; cases hef
  obtain ⟨-, hsent⟩ := runTrace_inv evs initState s hinit_p hinit_s h
  intro ef hef
  rcases hsent ef hef with ⟨e, rfl⟩ | ⟨f, r, rfl⟩
  · refine ⟨fun _ => rfl, fun hb => ?_⟩
    simp [mkErrExportFrame] at hb
  · refine ⟨fun he => ?_, fun _ => rfl⟩
    simp [fillResponse, mkPendingFrame] at he

/-- A witness for C10: with iframe_only set to false, a run with one
frame, one error file and the frame response exports the error record
with is_iframe false and the filled record with is_iframe equal to the
flag. -/
theorem is_iframe_flag_witness :
    (mkErrExportFrame exErr).is_iframe = false ∧
    (fillResponse (mkPendingFrame false exFrame) exResp).is_iframe = false := by
  have h := is_iframe_flag false
    [PipeEvent.media (WebpItem.frame exFrame) "u1",
     PipeEvent.media (WebpItem.errFile exErr) "u2",
     PipeEvent.response exResp]
    { pending := []
      sent := [fillResponse (mkPendingFrame false exFrame) exResp,
               mkErrExportFrame exErr] }
    rfl
  have herr := h (mkErrExportFrame exErr)
    (List.mem_cons_of_mem _ (List.mem_cons_self _ _))
  have hfill := h (fillResponse (mkPendingFrame false exFrame) exResp)
    (List.mem_cons_self _ _)
  exact ⟨herr.1 rfl, hfill.2 rfl⟩

end Md5rs
